import Mathlib

/-! A shallow embedding of the `deebee` key-value store (`src/main.rs`) and a
verification of the specification's claims against it.

Modelling conventions:
- File contents and record keys/values are `List Char` (the store only ever
  handles text written by `format!`, so one `Char` per byte; offsets counted
  in characters model the byte offsets of the ASCII data the program writes).
- The file system is an association list from file name to contents; a file
  that is absent from the list does not exist on disk.
- Rust panics (`expect`, `unwrap` on failure, `todo!()`) and propagated
  `io::Error`s are both modelled as `Except.error` with a `DbErr`
  constructor recording which exit was taken.
- `u64` offsets are modelled as `Nat`: none of the verified facts involve
  wrap-around, and the program never subtracts offsets.
- Rust's `str::trim` strips the characters with the Unicode White_Space
  property; `isWs` lists that set exhaustively, so the modelled `trim`
  agrees with `str::trim` on every input.
-/

namespace Deebee

abbrev Bytes := List Char

/-- Convenience conversion from a string literal to its character list. -/
def str (s : String) : Bytes := s.data

/-- Rust's `char::is_whitespace`: the Unicode White_Space property, listed
exhaustively (U+0009..U+000D, U+0020, U+0085, U+00A0, U+1680,
U+2000..U+200A, U+2028, U+2029, U+202F, U+205F, U+3000). -/
def isWs (c : Char) : Bool :=
  c = ' ' || c = '\t' || c = '\n' || c.val = 0x0B || c.val = 0x0C || c = '\r' ||
  c.val = 0x85 || c.val = 0xA0 || c.val = 0x1680 ||
  (0x2000 ≤ c.val && c.val ≤ 0x200A) ||
  c.val = 0x2028 || c.val = 0x2029 || c.val = 0x202F || c.val = 0x205F ||
  c.val = 0x3000

/-- Leading-whitespace strip, models the left half of Rust's `str::trim`. -/
def trimLeft (l : Bytes) : Bytes := l.dropWhile isWs

/-- Trailing-whitespace strip, models the right half of Rust's `str::trim`. -/
def trimRight (l : Bytes) : Bytes := (l.reverse.dropWhile isWs).reverse

/-- Rust's `str::trim`: strip whitespace from both ends. -/
def trim (l : Bytes) : Bytes := trimRight (trimLeft l)

/-- Split at every newline character; always returns at least one part.
Helper for `rustLines`. -/
def splitNl : Bytes → List Bytes
  | [] => [[]]
  | c :: rest =>
    if c = '\n' then [] :: splitNl rest
    else
      match splitNl rest with
      | [] => [[c]]
      | h :: t => (c :: h) :: t

/-- Strip one trailing carriage return, as Rust's `str::lines` does per line. -/
def stripCR (l : Bytes) : Bytes :=
  if l.getLast? = some '\r' then l.dropLast else l

/-- Rust's `str::lines`: split on newline terminators (no trailing empty line
when the content ends with a newline), stripping a trailing carriage return
from each line. -/
def rustLines (l : Bytes) : List Bytes :=
  let parts := splitNl l
  (if parts.getLast? = some [] then parts.dropLast else parts).map stripCR

/-- Rust's `str::split_once`: split at the first occurrence of `sep`,
returning `none` when `sep` does not occur. -/
def split_once (sep : Char) : Bytes → Option (Bytes × Bytes)
  | [] => none
  | c :: rest =>
    if c = sep then some ([], rest)
    else
      match split_once sep rest with
      | some kv => some (c :: kv.1, kv.2)
      | none => none

/-- `struct Map(Vec<(String, String)>)` from `src/main.rs`. -/
abbrev Map := List (Bytes × Bytes)

/-- The loop body of `Map::read_database` (src/main.rs lines 49-57): skip
lines that are empty after trimming, split each remaining line at its first
comma (lines without a comma are skipped), and collect the trimmed halves. -/
def readLines : List Bytes → Map
  | [] => []
  | line :: rest =>
    if trim line = [] then readLines rest
    else
      match split_once ',' line with
      | some kv => (trim kv.1, trim kv.2) :: readLines rest
      | none => readLines rest

/-- `Map::read_database` (src/main.rs lines 46-62). -/
def read_database (file_content : Bytes) : Map :=
  readLines (rustLines file_content)

/-- `struct Index(HashMap<String, u64>)` from `src/main.rs`, modelled as an
association list in which the most recent insertion is found first. -/
abbrev Index := List (Bytes × Nat)

/-- `Index::insert` (src/main.rs lines 22-24): `HashMap::insert`, overwriting
any previous binding of the key. -/
def Index.insert (idx : Index) (k : Bytes) (v : Nat) : Index :=
  (k, v) :: idx.filter (fun p => p.1 != k)

/-- `HashMap::get` on the index (used by `Database::get_by_key`). -/
def Index.lookup : Index → Bytes → Option Nat
  | [], _ => none
  | (k, off) :: rest, key => if k = key then some off else Index.lookup rest key

/-- The file system: an association list from file name to contents. -/
abbrev FS := List (String × Bytes)

def fsLookup : FS → String → Option Bytes
  | [], _ => none
  | (n, c) :: rest, name => if n = name then some c else fsLookup rest name

/-- `Path::exists`. -/
def fsContains (fs : FS) (name : String) : Bool :=
  (fsLookup fs name).isSome

/-- `File::create` followed by `write_all`: (re)write the whole file. -/
def fsUpdate (fs : FS) (name : String) (content : Bytes) : FS :=
  (name, content) :: fs.filter (fun p => p.1 != name)

/-- Outcomes of the fallible paths of `src/main.rs`. -/
inductive DbErr
  | ioError
  | panicCreateSegment
  | panicReadDatabase
  | todoUnimplemented
deriving DecidableEq, Repr

/-- `File::create_new`: fails when the file already exists, otherwise creates
it empty.  The `expect` wrapping in the source turns the failure into a panic,
modelled as `DbErr.panicCreateSegment`. -/
def fileCreateNew (fs : FS) (name : String) : Except DbErr FS :=
  if fsContains fs name then .error .panicCreateSegment
  else .ok (fsUpdate fs name [])

/-- `const SEGMENT_SIZE: usize = 10` (src/main.rs line 9). -/
def SEGMENT_SIZE : Nat := 10

/-- `struct Database` (src/main.rs lines 65-70). -/
structure Database where
  db_name : String
  map : Map
  idx : Index
  segment_files_paths : List String

/-- The path `format!("{db_name}{seg_idx}.log")` built by
`Database::create_segement_file`. -/
def segFileName (db_name : String) (seg_idx : Nat) : String :=
  db_name ++ toString seg_idx ++ ".log"

/-- `Database::create_segement_file` (src/main.rs lines 145-150): build the
path, `File::create_new(...).expect(...)`, return the path. -/
def create_segement_file (fs : FS) (db_name : String) (seg_idx : Nat) :
    Except DbErr (String × FS) :=
  let file_path := segFileName db_name seg_idx
  match fileCreateNew fs file_path with
  | .error e => .error e
  | .ok fs2 => .ok (file_path, fs2)

/-- The index-rebuilding loop of `Database::new` (src/main.rs lines 108-134):
walk the lines carrying a running byte offset and a `line_number` that only
advances when `map.get_key(line_number)` succeeds; each non-blank line inserts
the `line_number`-th key of `map` at the current offset. -/
def buildIdxGo (map : Map) : List Bytes → Nat → Nat → Index → Index
  | [], _, _, idx => idx
  | line :: rest, offset, line_number, idx =>
    if trim line = [] then
      buildIdxGo map rest (offset + line.length + 1) line_number idx
    else
      match map.get? line_number with
      | some kv =>
        buildIdxGo map rest (offset + line.length + 1) (line_number + 1)
          (Index.insert idx kv.1 offset)
      | none => buildIdxGo map rest (offset + line.length + 1) line_number idx

/-- Index reconstruction of `Database::new` for a non-empty file content:
`read_database` then the offset loop starting at offset 0, line number 0,
empty index. -/
def buildIdx (file_content : Bytes) : Index :=
  buildIdxGo (read_database file_content) (rustLines file_content) 0 0 []

/-- `Database::new` (src/main.rs lines 73-143).  Creates segment file 1 via
`create_segement_file` (which panics if it already exists), records its path,
then branches on `file_path.exists()`.  Because the segment file was just
created, the `!exists` branch is dead and the `exists` branch always reads the
freshly created empty file.  The `Map` rebuilt inside the non-empty-content
block is bound in an inner scope and dropped in the source, so the returned
`map` field is always the empty outer one; only `idx` escapes. -/
def Database.new (db_name : String) (fs : FS) : Except DbErr (Database × FS) :=
  match create_segement_file fs db_name 1 with
  | .error e => .error e
  | .ok pfs =>
    let file_path := pfs.1
    let fs1 := pfs.2
    let segment_files_paths := [file_path]
    if fsContains fs1 file_path = false then
      match fileCreateNew fs1 file_path with
      | .error e => .error e
      | .ok fs2 =>
        .ok (⟨db_name, [], [], segment_files_paths⟩, fs2)
    else
      match fsLookup fs1 file_path with
      | none => .error .panicReadDatabase
      | some file_content =>
        .ok (⟨db_name, [],
              if file_content = [] then [] else buildIdx file_content,
              segment_files_paths⟩, fs1)

/-- `Database::compact_segments` (src/main.rs lines 152-154): the body is
`todo!()`, which panics unconditionally. -/
def Database.compact_segments : Except DbErr Unit :=
  .error .todoUnimplemented

/-- `BufReader::seek(SeekFrom::Start(offset))` followed by `read_line`: the
characters from `offset` up to and including the next newline (or to the end
of the content when no newline follows). -/
def readLineFrom (content : Bytes) (offset : Nat) : Bytes :=
  let rest := content.drop offset
  let line := rest.takeWhile (fun c => c != '\n')
  if line.length < rest.length then line ++ ['\n'] else line

/-- `Database::get_by_key` (src/main.rs lines 156-177): look the key up in the
index; on a hit, open the file named `self.db_name` (not the segment file),
seek to the stored offset, read one line and split it at the first comma,
returning the trimmed right half.  Every path that does not both hit the index
and find a comma falls through to `Ok("")`. -/
def Database.get_by_key (db : Database) (fs : FS) (key : Bytes) :
    Except DbErr Bytes :=
  match Index.lookup db.idx key with
  | some offset =>
    match fsLookup fs db.db_name with
    | none => .error .ioError
    | some content =>
      match split_once ',' (readLineFrom content offset) with
      | some kv => .ok (trim kv.2)
      | none => .ok []
  | none => .ok []

/-- The line `format!("{}, {}", key, value)` appended by
`Database::set_by_key`: this is the record encoder of the store. -/
def encodeLine (key value : Bytes) : Bytes :=
  key ++ ',' :: ' ' :: value

/-- The content transformation of `Database::set_by_key` (src/main.rs lines
184-195): start a new file with the encoded line, or append it after the old
content, inserting a newline when the old content does not end with one. -/
def setContent (content key value : Bytes) : Bytes :=
  let new_line := encodeLine key value
  if content = [] then new_line
  else if content.getLast? = some '\n' then content ++ new_line
  else content ++ '\n' :: new_line

/-- `Database::set_by_key` (src/main.rs lines 179-204): read the whole file
named `self.db_name` (`expect` panics when it does not exist), compute the new
content, and rewrite the file with it.  The method consumes `self` and never
touches the in-memory index or the segment files. -/
def Database.set_by_key (db : Database) (fs : FS) (key value : Bytes) :
    Except DbErr FS :=
  match fsLookup fs db.db_name with
  | none => .error .panicReadDatabase
  | some content => .ok (fsUpdate fs db.db_name (setContent content key value))

/-- `enum Command` (src/main.rs lines 207-215): the full command surface of
the program. -/
inductive Command
  | get (key : String)
  | set (key : String) (value : String)
  | new

/-- Run a sequence of `set_by_key` calls against one database value,
threading the file system. -/
def runSets (db : Database) : FS → List (Bytes × Bytes) → Except DbErr FS
  | fs, [] => .ok fs
  | fs, (k, v) :: rest =>
    match Database.set_by_key db fs k v with
    | .error e => .error e
    | .ok fs2 => runSets db fs2 rest

/-- The ten-plus-one distinct keys written in the segment-capacity scenario. -/
def elevenWrites : List (Bytes × Bytes) :=
  [(str "k0", str "x"), (str "k1", str "x"), (str "k2", str "x"),
   (str "k3", str "x"), (str "k4", str "x"), (str "k5", str "x"),
   (str "k6", str "x"), (str "k7", str "x"), (str "k8", str "x"),
   (str "k9", str "x"), (str "k10", str "x")]

/-! Helper lemmas about `dropWhile`, `trim`, line splitting and the file
system model. -/

theorem dropWhile_length_le (p : Char → Bool) (l : List Char) :
    (l.dropWhile p).length ≤ l.length := by
  induction l with
  | nil => simp
  | cons a t ih =>
    rw [List.dropWhile_cons]
    split
    · exact le_trans ih (Nat.le_succ _)
    · simp

theorem dropWhile_eq_self_of_length (p : Char → Bool) (l : List Char)
    (h : (l.dropWhile p).length = l.length) : l.dropWhile p = l := by
  cases l with
  | nil => simp
  | cons a t =>
    by_cases hp : p a = true
    · exfalso
      rw [List.dropWhile_cons, if_pos hp] at h
      have h2 := dropWhile_length_le p t
      simp [List.length_cons] at h
      omega
    · rw [List.dropWhile_cons, if_neg hp]

theorem mem_dropWhile_of_mem (p : Char → Bool) (c : Char) (l : List Char)
    (hc : c ∈ l) (hp : p c = false) : c ∈ l.dropWhile p := by
  induction l with
  | nil => cases hc
  | cons a t ih =>
    rw [List.dropWhile_cons]
    by_cases hpa : p a = true
    · rw [if_pos hpa]
      rcases List.mem_cons.mp hc with h1 | h1
      · subst h1; rw [hp] at hpa; cases hpa
      · exact ih h1
    · rw [if_neg hpa]; exact hc

theorem dropWhile_head_not (p : Char → Bool) (l : List Char) (c : Char)
    (hfix : l.dropWhile p = l) (hh : l.head? = some c) : p c = false := by
  cases l with
  | nil => cases hh
  | cons a t =>
    have ha : a = c := by simpa using hh
    subst ha
    by_cases hpa : p a = true
    · exfalso
      rw [List.dropWhile_cons, if_pos hpa] at hfix
      have h2 := dropWhile_length_le p t
      have h3 : (a :: t).length = (List.dropWhile p t).length := by rw [hfix]
      simp [List.length_cons] at h3
      omega
    · simpa using hpa

theorem trimLeft_length_le (l : Bytes) : (trimLeft l).length ≤ l.length :=
  dropWhile_length_le _ _

theorem trimRight_length_le (l : Bytes) : (trimRight l).length ≤ l.length := by
  unfold trimRight
  have h := dropWhile_length_le isWs l.reverse
  simpa using h

theorem trimLeft_eq_of_trim_eq (l : Bytes) (h : trim l = l) : trimLeft l = l := by
  have h1 : (trim l).length = l.length := by rw [h]
  have h2 : (trim l).length ≤ (trimLeft l).length := trimRight_length_le (trimLeft l)
  have h3 : (trimLeft l).length ≤ l.length := trimLeft_length_le l
  have h4 : (l.dropWhile isWs).length = l.length := by
    unfold trimLeft at h2 h3
    omega
  have h5 := dropWhile_eq_self_of_length isWs l h4
  unfold trimLeft
  exact h5

theorem trimRight_eq_of_trim_eq (l : Bytes) (h : trim l = l) : trimRight l = l := by
  have h1 := trimLeft_eq_of_trim_eq l h
  unfold trim at h
  rw [h1] at h
  exact h

theorem trim_cons_space (v : Bytes) : trim (' ' :: v) = trim v := by
  unfold trim trimLeft
  rw [List.dropWhile_cons]
  have hsp : isWs ' ' = true := rfl
  rw [hsp]
  simp

theorem getLast_not_ws_of_trim_eq (l : Bytes) (c : Char) (h : trim l = l)
    (hc : l.getLast? = some c) : isWs c = false := by
  have hr := trimRight_eq_of_trim_eq l h
  unfold trimRight at hr
  have hr2 : l.reverse.dropWhile isWs = l.reverse := by
    have h2 := congrArg List.reverse hr
    simpa using h2
  have hh : l.reverse.head? = some c := by rw [List.head?_reverse]; exact hc
  exact dropWhile_head_not isWs l.reverse c hr2 hh

theorem trim_ne_nil_of_mem (l : Bytes) (c : Char) (hc : c ∈ l)
    (hw : isWs c = false) : trim l ≠ [] := by
  intro h0
  have h1 : c ∈ trimLeft l := mem_dropWhile_of_mem isWs c l hc hw
  unfold trim trimRight at h0
  have h2 : (trimLeft l).reverse.dropWhile isWs = [] :=
    List.reverse_eq_nil_iff.mp h0
  have h3 := List.dropWhile_eq_nil_iff.mp h2
  have h4 : c ∈ (trimLeft l).reverse := List.mem_reverse.mpr h1
  have h5 := h3 c h4
  rw [hw] at h5
  cases h5

theorem splitNl_no_nl (l : Bytes) (h : '\n' ∉ l) : splitNl l = [l] := by
  induction l with
  | nil => rfl
  | cons c t ih =>
    have hc : ¬ (c = '\n') := fun he => h (he ▸ List.mem_cons_self c t)
    have ht : '\n' ∉ t := fun hm => h (List.mem_cons_of_mem c hm)
    simp only [splitNl]
    rw [if_neg hc, ih ht]

theorem rustLines_single (l : Bytes) (h1 : '\n' ∉ l) (h2 : l ≠ [])
    (h3 : stripCR l = l) : rustLines l = [l] := by
  unfold rustLines
  rw [splitNl_no_nl l h1]
  show List.map stripCR
      (if ([l] : List Bytes).getLast? = some [] then List.dropLast [l] else [l]) = [l]
  rw [if_neg (by simpa using h2)]
  simp [h3]

theorem split_once_append (sep : Char) (k rest : Bytes) (h : sep ∉ k) :
    split_once sep (k ++ sep :: rest) = some (k, rest) := by
  induction k with
  | nil => simp [split_once]
  | cons c t ih =>
    have hc : ¬ (c = sep) := fun he => h (he ▸ List.mem_cons_self c t)
    have ht : sep ∉ t := fun hm => h (List.mem_cons_of_mem c hm)
    simp only [List.cons_append, split_once, List.append_eq]
    rw [if_neg hc, ih ht]

theorem fsLookup_filter_ne (fs : FS) (n m : String) (h : m ≠ n) :
    fsLookup (fs.filter (fun p => p.1 != n)) m = fsLookup fs m := by
  induction fs with
  | nil => rfl
  | cons a rest ih =>
    obtain ⟨an, ac⟩ := a
    by_cases ha : an = n
    · subst ha
      have hm : ¬ (an = m) := fun he => h he.symm
      simp [List.filter_cons, fsLookup, hm, ih]
    · have hb : (an != n) = true := by simp [ha]
      by_cases hm : an = m
      · subst hm
        simp [List.filter_cons, hb, fsLookup]
      · simp [List.filter_cons, hb, fsLookup, hm, ih]

theorem fsLookup_update_self (fs : FS) (n : String) (c : Bytes) :
    fsLookup (fsUpdate fs n c) n = some c := by
  simp [fsUpdate, fsLookup]

theorem fsLookup_update_other (fs : FS) (n m : String) (c : Bytes) (h : m ≠ n) :
    fsLookup (fsUpdate fs n c) m = fsLookup fs m := by
  simp only [fsUpdate, fsLookup]
  rw [if_neg (fun he => h he.symm)]
  exact fsLookup_filter_ne fs n m h

theorem fsContains_update_self (fs : FS) (n : String) (c : Bytes) :
    fsContains (fsUpdate fs n c) n = true := by
  simp [fsContains, fsLookup_update_self]

theorem prefix_setContent (content k v : Bytes) :
    content <+: setContent content k v := by
  unfold setContent
  by_cases h0 : content = []
  · simp [h0]
  · rw [if_neg h0]
    by_cases h1 : content.getLast? = some '\n'
    · rw [if_pos h1]; exact List.prefix_append _ _
    · rw [if_neg h1]; exact List.prefix_append _ _

/-! Verification of the specification's claims. -/

/-- Claim C1: the spec states that after `set(k, v)` succeeds, `get(k)`
returns `Some(v)`, within the same session and after close+reopen.  On the
code, a fresh database (with a plain file named `db` present so that
`set_by_key`'s read does not panic) runs `set("a","1")` successfully, yet
`get("a")` afterwards returns `Ok("")` - `set_by_key` never updates the
in-memory index - and reopening the database afterwards panics in
`create_segement_file` because `db1.log` already exists, so Recovery never
runs either. -/
theorem c1_get_after_set_returns_empty :
    ((Database.new "db" [("db", [])]).bind fun p =>
      (Database.set_by_key p.1 p.2 (str "a") (str "1")).map fun fs2 =>
        Database.get_by_key p.1 fs2 (str "a"))
      = .ok (.ok []) ∧
    (Except.ok [] : Except DbErr Bytes) ≠ .ok (str "1") ∧
    ((Database.new "db" [("db", [])]).bind fun p =>
      (Database.set_by_key p.1 p.2 (str "a") (str "1")).bind fun fs2 =>
        (Database.new "db" fs2).map fun _ => ())
      = .error .panicCreateSegment :=
  ⟨rfl, by simp [str], rfl⟩

/-- Claim C2: the spec states last-write-wins, i.e. `set(k,v1); set(k,v2)`
makes `get(k)` return `Some(v2)`.  On the code, after two successful sets of
key `"a"`, `get("a")` still returns `Ok("")`: neither set touches the index,
so the overwrite-on-repeat replay that would make the last write visible
never happens in a live session. -/
theorem c2_last_write_not_visible :
    ((Database.new "db" [("db", [])]).bind fun p =>
      (Database.set_by_key p.1 p.2 (str "a") (str "1")).bind fun fs2 =>
        (Database.set_by_key p.1 fs2 (str "a") (str "2")).map fun fs3 =>
          Database.get_by_key p.1 fs3 (str "a"))
      = .ok (.ok []) ∧
    (Except.ok [] : Except DbErr Bytes) ≠ .ok (str "2") :=
  ⟨rfl, by simp [str]⟩

/-- Claim C3: the spec states that `delete(k)` appends a tombstone, flushes
and removes the index entry so that `get(k)` returns `None`.  The program has
no delete operation at all: every command of its surface is `Get`, `Set` or
`New`, and `Database` exposes no tombstone or removal path. -/
theorem c3_command_surface_lacks_delete (c : Command) :
    (∃ k, c = Command.get k) ∨ (∃ k v, c = Command.set k v) ∨ c = Command.new := by
  cases c with
  | get k => exact Or.inl ⟨k, rfl⟩
  | set k v => exact Or.inr (Or.inl ⟨k, v, rfl⟩)
  | new => exact Or.inr (Or.inr rfl)

/-- Claim C4 (counterexample): the codec does not round-trip arbitrary byte
sequences.  Encoding the record with key `"a,b"` and value `"c"` produces the
line `"a,b, c"`, which decodes to key `"a"` and value `"b, c"`: the comma is
a reserved delimiter of the textual framing. -/
theorem c4_comma_in_key_not_roundtripped :
    read_database (encodeLine (str "a,b") (str "c")) = [(str "a", str "b, c")] ∧
    [(str "a", str "b, c")] ≠ [(str "a,b", str "c")] :=
  ⟨rfl, by decide⟩

/-- Claim C4 (amended): `decode(encode(k, v)) = [(k, v)]` holds exactly on
the restricted records the textual framing can represent: the key contains
no comma and no newline, the value contains no newline, and both are
invariant under `trim` (no leading or trailing whitespace). -/
theorem c4_roundtrip_restricted (k v : Bytes)
    (h1 : ',' ∉ k) (h2 : '\n' ∉ k) (h3 : '\n' ∉ v)
    (h4 : trim k = k) (h5 : trim v = v) :
    read_database (encodeLine k v) = [(k, v)] := by
  have hne : encodeLine k v ≠ [] := by simp [encodeLine]
  have hnl : '\n' ∉ encodeLine k v := by
    unfold encodeLine
    intro hm
    rcases List.mem_append.mp hm with hk | hcv
    · exact h2 hk
    · rcases List.mem_cons.mp hcv with he | hcv2
      · exact absurd he (by decide)
      · rcases List.mem_cons.mp hcv2 with he | hv
        · exact absurd he (by decide)
        · exact h3 hv
  have hcr : stripCR (encodeLine k v) = encodeLine k v := by
    unfold stripCR
    rw [if_neg ?hlast]
    case hlast =>
      by_cases hv0 : v = []
      · subst hv0
        have hg : (encodeLine k []).getLast? = some ' ' := by
          unfold encodeLine
          rw [List.getLast?_append_of_ne_nil _ (by simp)]
          rfl
        rw [hg]
        decide
      · have hg : (encodeLine k v).getLast? = v.getLast? := by
          unfold encodeLine
          rw [List.getLast?_append_of_ne_nil _ (by simp)]
          rw [show ((',' :: ' ' :: v) : Bytes) = [',', ' '] ++ v from rfl]
          rw [List.getLast?_append_of_ne_nil _ hv0]
        obtain ⟨c, hcl⟩ : ∃ c, v.getLast? = some c := by
          have hs : v.getLast?.isSome := List.getLast?_isSome.mpr hv0
          exact Option.isSome_iff_exists.mp hs
        have hcw := getLast_not_ws_of_trim_eq v c h5 hcl
        rw [hg, hcl]
        intro hcon
        have hcr2 : c = '\r' := by simpa using hcon
        rw [hcr2] at hcw
        exact absurd hcw (by decide)
  have hrl : rustLines (encodeLine k v) = [encodeLine k v] :=
    rustLines_single _ hnl hne hcr
  have hsp : split_once ',' (encodeLine k v) = some (k, ' ' :: v) :=
    split_once_append ',' k (' ' :: v) h1
  have htr : trim (encodeLine k v) ≠ [] := by
    refine trim_ne_nil_of_mem _ ',' ?_ (by decide)
    unfold encodeLine
    exact List.mem_append_right _ (List.mem_cons_self _ _)
  unfold read_database
  rw [hrl]
  simp only [readLines]
  rw [if_neg htr, hsp]
  simp [readLines, h4, trim_cons_space, h5]

/-- Claim C4 (witness for the amended round-trip, at key `"ab"`, value
`"cd"`). -/
theorem c4_roundtrip_restricted_witness :
    (',' ∉ str "ab") ∧ ('\n' ∉ str "ab") ∧ ('\n' ∉ str "cd") ∧
    trim (str "ab") = str "ab" ∧ trim (str "cd") = str "cd" ∧
    read_database (encodeLine (str "ab") (str "cd")) = [(str "ab", str "cd")] :=
  ⟨by decide, by decide, by decide, rfl, rfl,
   c4_roundtrip_restricted (str "ab") (str "cd") (by decide) (by decide)
     (by decide) rfl rfl⟩

/-- Claim C5: the spec states that Recovery treats a decode failure as the
logical end of the segment, stopping the replay there so that every earlier
record keeps a correct pointer.  On the code, replaying the content
`"a, 1\nbad\nb, 2\n"` does not stop at the malformed line `"bad"`: the index
still receives key `"b"`, but at offset 5 - the offset of `"bad"` itself, not
of the record `"b, 2"` at offset 9 - so reading `"b"` through the rebuilt
index yields `Ok("")` while the earlier record `"a"` (offset 0) is read
correctly. -/
theorem c5_recovery_misindexes_after_bad_line :
    Index.lookup (buildIdx (str "a, 1\nbad\nb, 2\n")) (str "b") = some 5 ∧
    readLineFrom (str "a, 1\nbad\nb, 2\n") 5 = str "bad\n" ∧
    Database.get_by_key
        ⟨"db", [], buildIdx (str "a, 1\nbad\nb, 2\n"), ["db1.log"]⟩
        [("db", str "a, 1\nbad\nb, 2\n")] (str "b") = .ok [] ∧
    Index.lookup (buildIdx (str "a, 1\nbad\nb, 2\n")) (str "a") = some 0 ∧
    Database.get_by_key
        ⟨"db", [], buildIdx (str "a, 1\nbad\nb, 2\n"), ["db1.log"]⟩
        [("db", str "a, 1\nbad\nb, 2\n")] (str "a") = .ok (str "1") :=
  ⟨rfl, rfl, rfl, rfl, rfl⟩

/-- Claim C6: the spec states that compaction is fully implemented and
preserves live reads.  In the code `Database::compact_segments` is `todo!()`:
it panics unconditionally and never returns success. -/
theorem c6_compact_segments_never_succeeds :
    Database.compact_segments ≠ Except.ok () := by
  intro h
  exact Except.noConfusion h

/-- Claim C7: the spec states that with segment capacity `N` (here
`SEGMENT_SIZE = 10`), writing `N + 1` distinct keys yields exactly two
segments, the last key resolving from the second.  On the code, after
creating the database and performing eleven successful sets of distinct
keys, the database still tracks the single segment file `db1.log`, no file
`db2.log` exists, and reading the eleventh key returns `Ok("")`:
`SEGMENT_SIZE` is never consulted and no rotation ever happens. -/
theorem c7_eleven_distinct_writes_still_one_segment :
    ((Database.new "db" [("db", [])]).bind fun p =>
      (runSets p.1 p.2 elevenWrites).map fun fsF =>
        (p.1.segment_files_paths, fsContains fsF (segFileName "db" 2),
         Database.get_by_key p.1 fsF (str "k10")))
      = .ok (["db1.log"], false, .ok []) ∧
    elevenWrites.length = SEGMENT_SIZE + 1 :=
  ⟨rfl, rfl⟩

/-- Claim C8 (counterexample): absence is not an explicit, distinguishable
empty result.  In the database state recovered from `"bad\nk, 1\n"` the key
`"k"` is present in the index (at offset 0, the malformed line) while `"z"`
is absent, yet `get` returns the identical `Ok("")` for both: a corrupt hit
and a missing key are indistinguishable, and no `None`-like marker exists. -/
theorem c8_absent_vs_corrupt_hit :
    Index.lookup (buildIdx (str "bad\nk, 1\n")) (str "k") = some 0 ∧
    Index.lookup (buildIdx (str "bad\nk, 1\n")) (str "z") = none ∧
    Database.get_by_key
        ⟨"db", [], buildIdx (str "bad\nk, 1\n"), ["db1.log"]⟩
        [("db", str "bad\nk, 1\n")] (str "k") = .ok [] ∧
    Database.get_by_key
        ⟨"db", [], buildIdx (str "bad\nk, 1\n"), ["db1.log"]⟩
        [("db", str "bad\nk, 1\n")] (str "z") = .ok [] :=
  ⟨rfl, rfl, rfl, rfl⟩

/-- Claim C8 (amended): for every key absent from the index, `get_by_key`
returns `Ok` of the empty string - a non-error result - for any database
state and file system. -/
theorem c8_get_absent_ok_empty (db : Database) (fs : FS) (key : Bytes)
    (h : Index.lookup db.idx key = none) :
    Database.get_by_key db fs key = .ok [] := by
  unfold Database.get_by_key
  rw [h]

/-- Claim C8 (witness for the amended statement). -/
theorem c8_get_absent_ok_empty_witness :
    Index.lookup (Database.mk "db" [] [] ["db1.log"]).idx (str "z") = none ∧
    Database.get_by_key (Database.mk "db" [] [] ["db1.log"]) [] (str "z")
      = .ok [] :=
  ⟨rfl, c8_get_absent_ok_empty (Database.mk "db" [] [] ["db1.log"]) [] (str "z") rfl⟩

/-- Claim C9: every successful `set_by_key` leaves the prior contents of the
written file as a prefix of its new contents (the observable append-only
property), and leaves every other file untouched. -/
theorem c9_set_appends_with_prefix (db : Database) (fs : FS) (k v : Bytes)
    (fs2 : FS) (h : Database.set_by_key db fs k v = .ok fs2) :
    ∃ old, fsLookup fs db.db_name = some old ∧
      fsLookup fs2 db.db_name = some (setContent old k v) ∧
      old <+: setContent old k v ∧
      ∀ name, name ≠ db.db_name → fsLookup fs2 name = fsLookup fs name := by
  unfold Database.set_by_key at h
  cases hc : fsLookup fs db.db_name with
  | none => rw [hc] at h; exact Except.noConfusion h
  | some old =>
    rw [hc] at h
    have hfs2 : fs2 = fsUpdate fs db.db_name (setContent old k v) := by
      injection h with hh
      exact hh.symm
    refine ⟨old, rfl, ?_, prefix_setContent old k v, ?_⟩
    · rw [hfs2]; exact fsLookup_update_self fs _ _
    · intro name hn; rw [hfs2]; exact fsLookup_update_other fs _ name _ hn

/-- Claim C9 (witness): a concrete successful set on the file `"db"`. -/
theorem c9_set_appends_with_prefix_witness :
    Database.set_by_key (Database.mk "db" [] [] ["db1.log"])
        [("db", ([] : Bytes))] (str "a") (str "1") = .ok [("db", str "a, 1")] ∧
    (∃ old,
      fsLookup [("db", ([] : Bytes))] (Database.mk "db" [] [] ["db1.log"]).db_name
        = some old ∧
      fsLookup [("db", str "a, 1")] (Database.mk "db" [] [] ["db1.log"]).db_name
        = some (setContent old (str "a") (str "1")) ∧
      old <+: setContent old (str "a") (str "1") ∧
      ∀ name, name ≠ (Database.mk "db" [] [] ["db1.log"]).db_name →
        fsLookup [("db", str "a, 1")] name = fsLookup [("db", ([] : Bytes))] name) :=
  ⟨rfl, c9_set_appends_with_prefix (Database.mk "db" [] [] ["db1.log"])
      [("db", ([] : Bytes))] (str "a") (str "1") [("db", str "a, 1")] rfl⟩

/-- Claim C10: constructing a `Database` whose first segment file already
exists panics inside `create_segement_file`, and whenever construction does
succeed the returned database has an empty index and an empty map - the
segment file was created fresh and empty, so the recovery code never runs on
actual data and opening an existing database never succeeds. -/
theorem c10_open_existing_db_panics (db_name : String) (fs : FS) :
    (fsContains fs (segFileName db_name 1) = true →
      Database.new db_name fs = .error .panicCreateSegment) ∧
    (∀ (d : Database) (fs2 : FS), Database.new db_name fs = .ok (d, fs2) →
      d.idx = [] ∧ d.map = []) := by
  constructor
  · intro h
    simp [Database.new, create_segement_file, fileCreateNew, h]
  · intro d fs2 h
    by_cases hc : fsContains fs (segFileName db_name 1) = true
    · simp [Database.new, create_segement_file, fileCreateNew, hc] at h
    · have hc2 : fsContains fs (segFileName db_name 1) = false := by
        cases hv : fsContains fs (segFileName db_name 1)
        · rfl
        · exact absurd hv hc
      have hcu : fsContains (fsUpdate fs (segFileName db_name 1) [])
          (segFileName db_name 1) = true := fsContains_update_self fs _ []
      simp [Database.new, create_segement_file, fileCreateNew, hc2, hcu,
            fsLookup_update_self] at h
      obtain ⟨h1, _⟩ := h
      constructor
      · rw [← h1]
      · rw [← h1]

/-- Claim C10 (witness): opening `"db"` when `db1.log` exists panics; opening
it on a file system without `db1.log` succeeds with an empty index and map. -/
theorem c10_open_existing_db_panics_witness :
    Database.new "db" [("db1.log", ([] : Bytes))] = .error .panicCreateSegment ∧
    ((Database.mk "db" [] [] ["db1.log"]).idx = [] ∧
     (Database.mk "db" [] [] ["db1.log"]).map = []) :=
  ⟨(c10_open_existing_db_panics "db" [("db1.log", [])]).1 rfl,
   (c10_open_existing_db_panics "db" []).2 (Database.mk "db" [] [] ["db1.log"])
     [("db1.log", [])] rfl⟩

end Deebee
